import Mathlib

/-!
Shallow embedding of the cyphernote editor core (src/src/App.tsx):
the undo/redo history engine, the list-aware key handler and the
obfuscation transform.  Text buffers are modelled as `List Char`
(JavaScript strings, indexed by code unit); the outcome of each call of
`Math.random` is modelled by an oracle `ℕ → ℕ` indexed by call order.
-/

/-- A buffer value: the full text content of the editor. -/
abbrev Buffer := List Char

/-- The observable editor state: the React state hooks `text`,
`undoStack` and `redoStack` of `App`.  Both stacks hold buffer
snapshots, most recently pushed first (index 0). -/
structure EditorState where
  text : Buffer
  undoStack : List Buffer
  redoStack : List Buffer
deriving Repr, DecidableEq

/-- `handleTextChange`: a typed edit.  Pushes the current buffer on the
undo stack, clears the redo stack and installs the new value. -/
def handleTextChange (s : EditorState) (newValue : Buffer) : EditorState :=
  ⟨newValue, s.text :: s.undoStack, []⟩

/-- `handleUndo`: pop the top undo snapshot into the buffer, pushing the
current buffer on the redo stack; no-op when the undo stack is empty. -/
def handleUndo (s : EditorState) : EditorState :=
  match s.undoStack with
  | [] => s
  | previousText :: newUndoStack => ⟨previousText, newUndoStack, s.text :: s.redoStack⟩

/-- `handleRedo`: pop the top redo snapshot into the buffer, pushing the
current buffer on the undo stack; no-op when the redo stack is empty. -/
def handleRedo (s : EditorState) : EditorState :=
  match s.redoStack with
  | [] => s
  | nextText :: newRedoStack => ⟨nextText, s.text :: s.undoStack, newRedoStack⟩

/-- `handleClear`: reset the buffer and both stacks, pushing nothing. -/
def handleClear (_s : EditorState) : EditorState :=
  ⟨[], [], []⟩

/-- Record a sequence of typed edits in order (left to right). -/
def recordAll (s : EditorState) (bs : List Buffer) : EditorState :=
  bs.foldl handleTextChange s

/-- Iterate `handleUndo` `n` times. -/
def undoN : ℕ → EditorState → EditorState
  | 0, s => s
  | n + 1, s => undoN n (handleUndo s)

/-- The full timeline encoded by a state: past snapshots (oldest first),
the current buffer, then the undone future. -/
def timeline (s : EditorState) : List Buffer :=
  s.undoStack.reverse ++ s.text :: s.redoStack

/-- Model of the JavaScript regex class \s, which is also the set of
characters stripped by JavaScript `trim`/`trimEnd`: tab, line feed,
vertical tab, form feed, carriage return, space, no-break space,
Ogham space mark, the en-quad..hair-space range, line separator,
paragraph separator, narrow no-break space, medium mathematical space,
ideographic space and the byte-order mark. -/
def jsSpace (c : Char) : Bool :=
  c.toNat = 9 || c.toNat = 10 || c.toNat = 11 || c.toNat = 12 || c.toNat = 13 ||
  c.toNat = 32 || c.toNat = 160 || c.toNat = 5760 ||
  (8192 ≤ c.toNat && c.toNat ≤ 8202) || c.toNat = 8232 || c.toNat = 8233 ||
  c.toNat = 8239 || c.toNat = 8287 || c.toNat = 12288 || c.toNat = 65279

/-- The structural-character class of `scrambleText`, mirroring the
character class of its regex: whitespace, hyphen, asterisk, the bullet
glyph, digits, period, parentheses, square brackets and braces
(`Char.ofNat 123` and `Char.ofNat 125` are the brace characters). -/
def isStructural (c : Char) : Bool :=
  jsSpace c || c = '-' || c = '*' || c = '•' || c.isDigit || c = '.' ||
    c = '(' || c = ')' || c = '[' || c = ']' || c = Char.ofNat 123 || c = Char.ofNat 125

/-- Worker for `scrambleText`: `i` is the index of the next character,
used to query the random oracle `r`.  A content character is replaced by
the character of code `r i % 94 + 33`, the model of
`Math.floor(Math.random() * (126 - 33 + 1)) + 33`. -/
def scrambleGo (r : ℕ → ℕ) : ℕ → Buffer → Buffer
  | _, [] => []
  | i, c :: cs =>
    (if isStructural c then c else Char.ofNat (r i % 94 + 33)) :: scrambleGo r (i + 1) cs

/-- `scrambleText`: per-character obfuscation of one line. -/
def scrambleText (r : ℕ → ℕ) (input : Buffer) : Buffer :=
  scrambleGo r 0 input

/-- Model of JavaScript `text.split('\n')`. -/
def splitLines : Buffer → List Buffer
  | [] => [[]]
  | c :: cs =>
    match splitLines cs with
    | [] => [[]]
    | l :: ls => if c = '\n' then [] :: l :: ls else (c :: l) :: ls

/-- `renderScrambledText`: scramble each line separately; line `i` uses
its own random oracle `r i`. -/
def renderScrambledText (r : ℕ → ℕ → ℕ) (text : Buffer) : List Buffer :=
  (splitLines text).enum.map fun p => scrambleText (r p.1) p.2

/-- Model of JavaScript `lastIndexOf` for a single character. -/
def lastIndexOfChar (c : Char) : Buffer → Option ℕ
  | [] => none
  | x :: xs =>
    match lastIndexOfChar c xs with
    | some i => some (i + 1)
    | none => if x = c then some 0 else none

/-- Model of JavaScript `indexOf` for a single character. -/
def indexOfChar (c : Char) : Buffer → Option ℕ
  | [] => none
  | x :: xs => if x = c then some 0 else (indexOfChar c xs).map (· + 1)

/-- `lineStartIndex`: start of the line containing the caret, computed
as in `getCurrentLine`/`removeBullet` (one past the last newline before
the caret, or 0). -/
def lineStartIndex (text : Buffer) (pos : ℕ) : ℕ :=
  match lastIndexOfChar '\n' (text.take pos) with
  | none => 0
  | some i => i + 1

/-- `lineEndIndex`: end of the line containing the caret (the next
newline at or after the caret, or the end of the buffer). -/
def lineEndIndex (text : Buffer) (pos : ℕ) : ℕ :=
  match indexOfChar '\n' (text.drop pos) with
  | none => text.length
  | some i => pos + i

/-- `getCurrentLine`: the substring between the line start and end. -/
def getCurrentLine (text : Buffer) (pos : ℕ) : Buffer :=
  (text.take (lineEndIndex text pos)).drop (lineStartIndex text pos)

/-- Model of JavaScript `trimEnd`. -/
def trimEnd (l : Buffer) : Buffer := (l.reverse.dropWhile jsSpace).reverse

/-- Model of JavaScript `trim`. -/
def trim (l : Buffer) : Buffer := trimEnd (l.dropWhile jsSpace)

/-- Model of matching a line against the bullet regex with its three
capture groups: leading whitespace, the bullet glyph, and the
(non-empty) whitespace after it. -/
def bulletMatch (line : Buffer) : Option (Buffer × Char × Buffer) :=
  let indent := line.takeWhile jsSpace
  match line.dropWhile jsSpace with
  | [] => none
  | b :: rest =>
    if b = '-' || b = '*' || b = '•' then
      let space := rest.takeWhile jsSpace
      if space.isEmpty then none else some (indent, b, space)
    else none

/-- Model of matching a line against the numbered regex with its three
capture groups: leading whitespace, the digit run, and the period plus
the (non-empty) whitespace after it. -/
def numberMatch (line : Buffer) : Option (Buffer × Buffer × Buffer) :=
  let indent := line.takeWhile jsSpace
  let digits := (line.dropWhile jsSpace).takeWhile Char.isDigit
  if digits.isEmpty then none
  else
    match (line.dropWhile jsSpace).dropWhile Char.isDigit with
    | '.' :: rest =>
      let space := rest.takeWhile jsSpace
      if space.isEmpty then none else some (indent, digits, '.' :: space)
    | _ => none

/-- The exact mathematical value of a captured run of digits. -/
def parseIntDigits (digits : Buffer) : ℕ :=
  digits.foldl (fun a c => a * 10 + (c.toNat - 48)) 0

/-- Number of binary digits of `n` (`0` for `n = 0`), computed with
explicit fuel so that it reduces by kernel computation. -/
def bitLenAux : ℕ → ℕ → ℕ
  | 0, _ => 0
  | fuel + 1, n => if n = 0 then 0 else bitLenAux fuel (n / 2) + 1

/-- Number of binary digits of `n`. -/
def bitLen (n : ℕ) : ℕ := bitLenAux n n

/-- Round a natural number to the nearest IEEE-754 double (round half
to even on the 53-bit significand).  Values up to `2 ^ 53` are exact.
This models the value component of the finite doubles the numbered-list
path manipulates; digit runs so large that `parseInt` overflows to
Infinity lie outside every theorem hypothesis below. -/
def roundToDouble (n : ℕ) : ℕ :=
  if n ≤ 2 ^ 53 then n
  else
    let ulp := 2 ^ (bitLen n - 53)
    let q := n / ulp
    let r := n % ulp
    if 2 * r < ulp then q * ulp
    else if ulp < 2 * r then (q + 1) * ulp
    else if q % 2 = 0 then q * ulp else (q + 1) * ulp

/-- Model of JavaScript `parseInt` on a captured run of digits: the
exact value rounded to the nearest double. -/
def parseIntJS (digits : Buffer) : ℕ := roundToDouble (parseIntDigits digits)

/-- `insertBulletPoint`: insert the two-character bullet token at the
caret; the caret lands right after it.  Pushes an undo snapshot and
leaves the redo stack as it was. -/
def insertBulletPoint (s : EditorState) (cursorPosition : ℕ) : EditorState × ℕ :=
  (⟨s.text.take cursorPosition ++ '•' :: ' ' :: s.text.drop cursorPosition,
    s.text :: s.undoStack, s.redoStack⟩, cursorPosition + 2)

/-- `insertNumberedItem`: insert the three-character first-item marker
at the caret; the caret lands right after it. -/
def insertNumberedItem (s : EditorState) (cursorPosition : ℕ) : EditorState × ℕ :=
  (⟨s.text.take cursorPosition ++ '1' :: '.' :: ' ' :: s.text.drop cursorPosition,
    s.text :: s.undoStack, s.redoStack⟩, cursorPosition + 3)

/-- `continueBulletList`: insert a newline, the indent and the bullet
marker at the caret; the caret lands after the inserted marker. -/
def continueBulletList (s : EditorState) (cursorPosition : ℕ)
    (indent : Buffer) (bullet : Char) (space : Buffer) : EditorState × ℕ :=
  (⟨s.text.take cursorPosition ++ '\n' :: (indent ++ bullet :: space) ++ s.text.drop cursorPosition,
    s.text :: s.undoStack, s.redoStack⟩,
   cursorPosition + 1 + indent.length + 1 + space.length)

/-- `continueNumberedList`: insert a newline, the indent, the
incremented number and the suffix at the caret; the caret lands after
the inserted marker.  `nextNumber = number + 1` is a double addition,
modelled by the exact sum rounded back to a double; integral doubles
below `10 ^ 21` print as their exact decimal digits, modelled by
`toString` on the value. -/
def continueNumberedList (s : EditorState) (cursorPosition : ℕ)
    (indent : Buffer) (number : ℕ) (suffix : Buffer) : EditorState × ℕ :=
  (⟨s.text.take cursorPosition ++
      '\n' :: (indent ++ (toString (roundToDouble (number + 1))).data ++ suffix) ++
      s.text.drop cursorPosition,
    s.text :: s.undoStack, s.redoStack⟩,
   cursorPosition + 1 + indent.length +
     (toString (roundToDouble (number + 1))).data.length + suffix.length)

/-- `removeBullet`: delete from the start of the caret line up to the
caret; the caret lands at the line start. -/
def removeBullet (s : EditorState) (cursorPosition : ℕ) : EditorState × ℕ :=
  (⟨s.text.take (lineStartIndex s.text cursorPosition) ++ s.text.drop cursorPosition,
    s.text :: s.undoStack, s.redoStack⟩, lineStartIndex s.text cursorPosition)

/-- `removeNumberedItem`: identical to `removeBullet` in the source. -/
def removeNumberedItem (s : EditorState) (cursorPosition : ℕ) : EditorState × ℕ :=
  (⟨s.text.take (lineStartIndex s.text cursorPosition) ++ s.text.drop cursorPosition,
    s.text :: s.undoStack, s.redoStack⟩, lineStartIndex s.text cursorPosition)

/-- Model of JavaScript `toLowerCase` (ASCII, as used on key names). -/
def toLowerCase (s : String) : String := ⟨s.data.map Char.toLower⟩

/-- `handleKeyDown`: the key handler.  Returns `none` when the handler
does not intercept the key (no `preventDefault`, no buffer change), and
`some (state, caret)` when it replaces the buffer and schedules the
caret. -/
def handleKeyDown (s : EditorState) (key : String) (altKey shiftKey : Bool)
    (cursorPosition : ℕ) : Option (EditorState × ℕ) :=
  if altKey && (toLowerCase key == "b") then some (insertBulletPoint s cursorPosition)
  else if altKey && (toLowerCase key == "n") then some (insertNumberedItem s cursorPosition)
  else if key == "Enter" && !shiftKey then
    match bulletMatch (getCurrentLine s.text cursorPosition) with
    | some (indent, bullet, space) =>
      if trim (getCurrentLine s.text cursorPosition) = bullet :: trimEnd space then
        some (removeBullet s cursorPosition)
      else
        some (continueBulletList s cursorPosition indent bullet space)
    | none =>
      match numberMatch (getCurrentLine s.text cursorPosition) with
      | some (indent, digits, suffix) =>
        if trim (getCurrentLine s.text cursorPosition) = digits ++ trimEnd suffix then
          some (removeNumberedItem s cursorPosition)
        else
          some (continueNumberedList s cursorPosition indent (parseIntJS digits) suffix)
      | none => none
  else none

theorem recordAll_redoStack (bs : List Buffer) :
    ∀ s : EditorState, s.redoStack = [] → (recordAll s bs).redoStack = [] := by
  induction bs with
  | nil => intro s h; simpa [recordAll] using h
  | cons b bs ih =>
    intro s _
    have hfold : recordAll s (b :: bs) = recordAll (handleTextChange s b) bs := by
      simp [recordAll]
    rw [hfold]
    exact ih _ rfl

theorem undoN_recordAll_aux (bs : List Buffer) : ∀ rs : List Buffer,
    undoN bs.length
      ⟨(recordAll ⟨[], [], []⟩ bs).text, (recordAll ⟨[], [], []⟩ bs).undoStack, rs⟩ =
    ⟨[], [], bs ++ rs⟩ := by
  induction bs using List.reverseRecOn with
  | nil => intro rs; simp [recordAll, undoN]
  | append_singleton bs b ih =>
    intro rs
    have h1 : recordAll ⟨[], [], []⟩ (bs ++ [b]) =
        ⟨b, (recordAll ⟨[], [], []⟩ bs).text :: (recordAll ⟨[], [], []⟩ bs).undoStack, []⟩ := by
      simp [recordAll, List.foldl_append, handleTextChange]
    rw [h1]
    have h2 : (bs ++ [b]).length = bs.length + 1 := by simp
    rw [h2]
    have h3 : undoN (bs.length + 1)
        (⟨b, (recordAll ⟨[], [], []⟩ bs).text :: (recordAll ⟨[], [], []⟩ bs).undoStack, rs⟩ : EditorState) =
        undoN bs.length
          ⟨(recordAll ⟨[], [], []⟩ bs).text, (recordAll ⟨[], [], []⟩ bs).undoStack, b :: rs⟩ := rfl
    rw [h3, ih (b :: rs)]
    simp

/-- C2: when the undo stack is non-empty, `handleUndo` followed by
`handleRedo` restores the exact prior state: same buffer, same undo
stack, same redo stack. -/
theorem undo_then_redo_roundtrip (s : EditorState) (h : s.undoStack ≠ []) :
    handleRedo (handleUndo s) = s := by
  obtain ⟨t, us, rs⟩ := s
  cases us with
  | nil => exact absurd rfl h
  | cons u us => rfl

/-- C2 witness: the roundtrip at a concrete one-deep state. -/
theorem undo_then_redo_roundtrip_witness :
    handleRedo (handleUndo ⟨['b'], [['a']], []⟩) = ⟨['b'], [['a']], []⟩ :=
  undo_then_redo_roundtrip ⟨['b'], [['a']], []⟩ (by decide)

/-- C3 counterexample: recording `['a']` then `['b']` from the empty
state and undoing twice leaves the redo stack `[['a'], ['b']]` — the
first-recorded value on top — which is not the claimed
`[['b'], ['a']]`. -/
theorem drain_order_cex :
    undoN 2 (recordAll ⟨[], [], []⟩ [['a'], ['b']]) = ⟨[], [], [['a'], ['b']]⟩ ∧
    (⟨[], [], [['a'], ['b']]⟩ : EditorState) ≠ ⟨[], [], [['b'], ['a']]⟩ := by
  decide

/-- C3 (amended): recording `b1 ... bn` from the empty state and then
undoing `n` times empties the buffer and the undo stack and leaves the
redo stack `[b1, ..., bn]`: the reverse of the claimed order, with the
first-recorded value on top. -/
theorem records_then_undoN_drains (bs : List Buffer) :
    undoN bs.length (recordAll ⟨[], [], []⟩ bs) = ⟨[], [], bs⟩ := by
  have hredo := recordAll_redoStack bs ⟨[], [], []⟩ rfl
  have haux := undoN_recordAll_aux bs []
  rcases hS : recordAll ⟨[], [], []⟩ bs with ⟨t, u, r⟩
  rw [hS] at hredo haux
  change r = [] at hredo
  subst hredo
  simpa using haux

/-- C4: `handleClear` unconditionally yields the empty state, and no
number of subsequent undos leaves that empty state. -/
theorem clear_wipes_history (s : EditorState) (n : ℕ) :
    handleClear s = ⟨[], [], []⟩ ∧ undoN n (handleClear s) = ⟨[], [], []⟩ := by
  refine ⟨rfl, ?_⟩
  show undoN n ⟨[], [], []⟩ = ⟨[], [], []⟩
  induction n with
  | zero => rfl
  | succ n ih => exact ih

/-- C8: `handleUndo` on an empty undo stack and `handleRedo` on an
empty redo stack are no-ops returning the state unchanged. -/
theorem empty_stack_undo_redo_noop (s : EditorState) :
    (s.undoStack = [] → handleUndo s = s) ∧ (s.redoStack = [] → handleRedo s = s) := by
  obtain ⟨t, us, rs⟩ := s
  constructor
  · intro h
    simp only at h
    subst h
    rfl
  · intro h
    simp only at h
    subst h
    rfl

/-- C8 witness: the no-ops at the all-empty state. -/
theorem empty_stack_undo_redo_noop_witness :
    handleUndo ⟨['x'], [], [['r']]⟩ = ⟨['x'], [], [['r']]⟩ ∧
    handleRedo ⟨['x'], [['u']], []⟩ = ⟨['x'], [['u']], []⟩ :=
  ⟨(empty_stack_undo_redo_noop ⟨['x'], [], [['r']]⟩).1 rfl,
   (empty_stack_undo_redo_noop ⟨['x'], [['u']], []⟩).2 rfl⟩

/-- C9: `handleUndo` and `handleRedo` both preserve the timeline
`reverse undoStack ++ [text] ++ redoStack` exactly; they only move the
current position inside it. -/
theorem undo_redo_preserve_timeline (s : EditorState) :
    timeline (handleUndo s) = timeline s ∧ timeline (handleRedo s) = timeline s := by
  obtain ⟨t, us, rs⟩ := s
  constructor
  · cases us <;> simp [handleUndo, timeline]
  · cases rs <;> simp [handleRedo, timeline]

/-- C1 counterexample: `insertBulletPoint` is a mutation-recording
operation (it pushes the pre-mutation buffer and sets the new one), yet
with a non-empty redo stack it leaves the redo stack non-empty instead
of clearing it. -/
theorem list_ops_keep_redo_cex :
    (insertBulletPoint ⟨['x'], [], [['y']]⟩ 0).1 = ⟨['•', ' ', 'x'], [['x']], [['y']]⟩ ∧
    (insertBulletPoint ⟨['x'], [], [['y']]⟩ 0).1.redoStack ≠ [] := by
  decide

/-- C1 (amended): a typed edit pushes the pre-mutation buffer, sets the
new value and clears the redo stack; every mutation performed by the
key handler (marker insertion, list continuation, empty-item removal)
pushes the pre-mutation buffer and sets the new value but leaves the
redo stack exactly as it was. -/
theorem mutation_stack_discipline :
    (∀ (s : EditorState) (newValue : Buffer),
      handleTextChange s newValue = ⟨newValue, s.text :: s.undoStack, []⟩) ∧
    (∀ (s : EditorState) (key : String) (altKey shiftKey : Bool) (pos : ℕ)
       (s2 : EditorState) (caret : ℕ),
      handleKeyDown s key altKey shiftKey pos = some (s2, caret) →
      s2.undoStack = s.text :: s.undoStack ∧ s2.redoStack = s.redoStack) := by
  refine ⟨fun s newValue => rfl, fun s key altKey shiftKey pos s2 caret h => ?_⟩
  have shape : handleKeyDown s key altKey shiftKey pos = none ∨
      ∃ t c, handleKeyDown s key altKey shiftKey pos =
        some (⟨t, s.text :: s.undoStack, s.redoStack⟩, c) := by
    unfold handleKeyDown
    repeat' split
    all_goals first
      | exact Or.inl rfl
      | exact Or.inr ⟨_, _, rfl⟩
  rcases shape with hnone | ⟨t, c, hsome⟩
  · rw [hnone] at h
    cases h
  · rw [hsome] at h
    have h1 : (⟨t, s.text :: s.undoStack, s.redoStack⟩ : EditorState) = s2 :=
      congrArg Prod.fst (Option.some.inj h)
    rw [← h1]
    exact ⟨rfl, rfl⟩

/-- C1 witness: the stack discipline instantiated on the empty-bullet
removal, a key-handler mutation performed with a non-empty redo stack. -/
theorem mutation_stack_discipline_witness :
    (⟨[], [['-', ' ']], [['y']]⟩ : EditorState).undoStack = ['-', ' '] :: [] ∧
    (⟨[], [['-', ' ']], [['y']]⟩ : EditorState).redoStack = [['y']] :=
  mutation_stack_discipline.2 ⟨['-', ' '], [], [['y']]⟩ "Enter" false false 2
    ⟨[], [['-', ' ']], [['y']]⟩ 0 (by decide)

theorem toNat_charOfNat (n : ℕ) (h : n < 55296) : (Char.ofNat n).toNat = n := by
  have hv : n.isValidChar := Or.inl h
  simp [Char.ofNat, hv, Char.ofNatAux, Char.toNat, UInt32.toNat, BitVec.toNat_ofNatLt]

theorem scrambleGo_length (r : ℕ → ℕ) :
    ∀ (l : Buffer) (i : ℕ), (scrambleGo r i l).length = l.length := by
  intro l
  induction l with
  | nil => intro i; rfl
  | cons c cs ih => intro i; simp [scrambleGo, ih]

theorem scrambleGo_get (r : ℕ → ℕ) :
    ∀ (l : Buffer) (i j : ℕ) (h : j < l.length) (h2 : j < (scrambleGo r i l).length),
      (scrambleGo r i l).get ⟨j, h2⟩ =
        if isStructural (l.get ⟨j, h⟩) then l.get ⟨j, h⟩
        else Char.ofNat (r (i + j) % 94 + 33) := by
  intro l
  induction l with
  | nil => intro i j h h2; exact absurd h (by simp)
  | cons c cs ih =>
    intro i j h h2
    cases j with
    | zero => simp [scrambleGo]
    | succ j =>
      have h' : j < cs.length := by simpa using h
      have h2' : j < (scrambleGo r (i + 1) cs).length := by simpa [scrambleGo] using h2
      have hidx : i + 1 + j = i + (j + 1) := by omega
      simp only [scrambleGo, List.get_cons_succ]
      rw [ih (i + 1) j h' h2', hidx]

theorem splitLines_no_newline : ∀ (cs : Buffer) (line : Buffer),
    line ∈ splitLines cs → '\n' ∉ line := by
  intro cs
  induction cs with
  | nil =>
    intro line hl
    simp [splitLines] at hl
    subst hl
    simp
  | cons c cs ih =>
    intro line hl
    simp only [splitLines] at hl
    cases hsp : splitLines cs with
    | nil =>
      rw [hsp] at hl
      simp at hl
      subst hl
      simp
    | cons l ls =>
      rw [hsp] at hl
      change line ∈ (if c = '\n' then [] :: l :: ls else (c :: l) :: ls) at hl
      by_cases hc : c = '\n'
      · rw [if_pos hc] at hl
        rcases List.mem_cons.mp hl with h1 | h2
        · subst h1; simp
        · exact ih line (hsp ▸ h2)
      · rw [if_neg hc] at hl
        rcases List.mem_cons.mp hl with h1 | h2
        · subst h1
          intro hmem
          rcases List.mem_cons.mp hmem with he | hm
          · exact hc he.symm
          · exact ih l (hsp ▸ List.mem_cons_self l ls) hm
        · exact ih line (hsp ▸ List.mem_cons_of_mem l h2)

/-- C5: for every random-oracle outcome and every line, the scrambled
output has the same length, reproduces every structural character at
its position, and replaces every content character by a character of
code 33 to 126; scrambled rendering applies the transform per line of
the newline-split buffer, and no split line contains a newline. -/
theorem scramble_line_and_render (r : ℕ → ℕ) (input : Buffer) :
    (scrambleText r input).length = input.length ∧
    (∀ (i : ℕ) (h : i < input.length) (h2 : i < (scrambleText r input).length),
      (isStructural (input.get ⟨i, h⟩) = true →
        (scrambleText r input).get ⟨i, h2⟩ = input.get ⟨i, h⟩) ∧
      (isStructural (input.get ⟨i, h⟩) = false →
        33 ≤ ((scrambleText r input).get ⟨i, h2⟩).toNat ∧
          ((scrambleText r input).get ⟨i, h2⟩).toNat ≤ 126)) ∧
    (∀ g : ℕ → ℕ → ℕ, renderScrambledText g input =
      (splitLines input).enum.map fun p => scrambleText (g p.1) p.2) ∧
    (∀ line ∈ splitLines input, '\n' ∉ line) := by
  refine ⟨scrambleGo_length r input 0, ?_, fun g => rfl,
    fun line hl => splitLines_no_newline input line hl⟩
  intro i h h2
  have hget := scrambleGo_get r input 0 i h h2
  rw [Nat.zero_add] at hget
  have hget2 : (scrambleText r input).get ⟨i, h2⟩ =
      if isStructural (input.get ⟨i, h⟩) = true then input.get ⟨i, h⟩
      else Char.ofNat (r i % 94 + 33) := hget
  constructor
  · intro hs
    rw [hget2, if_pos hs]
  · intro hs
    have hs' : ¬ isStructural (input.get ⟨i, h⟩) = true := by
      intro hh
      rw [hh] at hs
      exact absurd hs (by decide)
    rw [hget2, if_neg hs']
    have hmod : r i % 94 < 94 := Nat.mod_lt _ (by omega)
    rw [toNat_charOfNat (r i % 94 + 33) (by omega)]
    omega

/-- C5 witness: on the line `"- go now"` with oracle `k * 7`, the
structural leading hyphen is reproduced and the content character at
index 2 is replaced by a printable character of code 33 to 126. -/
theorem scramble_line_and_render_witness :
    (scrambleText (fun k => k * 7) "- go now".data).get ⟨0, by decide⟩ = '-' ∧
    (33 ≤ ((scrambleText (fun k => k * 7) "- go now".data).get ⟨2, by decide⟩).toNat ∧
      ((scrambleText (fun k => k * 7) "- go now".data).get ⟨2, by decide⟩).toNat ≤ 126) :=
  ⟨((scramble_line_and_render (fun k => k * 7) "- go now".data).2.1 0
      (by decide) (by decide)).1 (by decide),
   ((scramble_line_and_render (fun k => k * 7) "- go now".data).2.1 2
      (by decide) (by decide)).2 (by decide)⟩

theorem bulletMatch_eq_none_of_numberMatch (line : Buffer) (x : Buffer × Buffer × Buffer)
    (h : numberMatch line = some x) : bulletMatch line = none := by
  cases hd : line.dropWhile jsSpace with
  | nil => simp [numberMatch, hd] at h
  | cons b rest =>
    by_cases hb : b.isDigit = true
    · have h1 : ¬ b = '-' := fun e => by rw [e] at hb; exact absurd hb (by decide)
      have h2 : ¬ b = '*' := fun e => by rw [e] at hb; exact absurd hb (by decide)
      have h3 : ¬ b = '•' := fun e => by rw [e] at hb; exact absurd hb (by decide)
      simp [bulletMatch, hd, h1, h2, h3]
    · simp [numberMatch, hd, List.takeWhile_cons, hb] at h

theorem roundToDouble_of_le (n : ℕ) (h : n ≤ 2 ^ 53) : roundToDouble n = n := by
  unfold roundToDouble
  rw [if_pos h]

/-- C6 counterexample: on the numbered line `"9007199254740993. x"`
(parsed value `2 ^ 53 + 1`, caret at the end) the double arithmetic of
the source is inexact: `parseInt` yields `9007199254740992` and adding
one yields `9007199254740992` again, so the inserted marker is
`"9007199254740992. "` — neither the parsed value plus one nor even a
changed number — refuting the claimed unconditional increment by
exactly one. -/
theorem numbered_increment_cex :
    (handleKeyDown ⟨"9007199254740993. x".data, [], []⟩ "Enter" false false 19 =
      some (⟨"9007199254740993. x\n9007199254740992. ".data,
             ["9007199254740993. x".data], []⟩, 38)) ∧
    "9007199254740993. x\n9007199254740992. ".data ≠
      "9007199254740993. x\n9007199254740994. ".data ∧
    "9007199254740993. x\n9007199254740992. ".data ≠
      "9007199254740993. x\n9007199254740993. ".data := by
  decide

/-- C6 (amended): on Enter without Shift, a caret line matching a
non-empty bullet item gets a newline, the same indent and the identical
bullet marker inserted at the caret, and a non-empty numbered item
whose parsed value is below `2 ^ 53` — the range where the source's
floating-point increment is exact — gets a newline, the same indent,
the parsed number plus exactly one and the same period-and-spacing
suffix; the caret lands right after the inserted marker in both cases.
At or above `2 ^ 53` the increment is inexact (see the counterexample).
The witness instantiates the spec example `"2. second item"` with the
caret at the end of the line. -/
theorem enter_continues_list (text : Buffer) (pos : ℕ) (us rs : List Buffer) :
    (∀ indent bullet space,
      bulletMatch (getCurrentLine text pos) = some (indent, bullet, space) →
      trim (getCurrentLine text pos) ≠ bullet :: trimEnd space →
      handleKeyDown ⟨text, us, rs⟩ "Enter" false false pos =
        some (⟨text.take pos ++ '\n' :: (indent ++ bullet :: space) ++ text.drop pos,
               text :: us, rs⟩,
              pos + 1 + indent.length + 1 + space.length)) ∧
    (∀ indent digits suffix,
      numberMatch (getCurrentLine text pos) = some (indent, digits, suffix) →
      trim (getCurrentLine text pos) ≠ digits ++ trimEnd suffix →
      parseIntDigits digits < 2 ^ 53 →
      handleKeyDown ⟨text, us, rs⟩ "Enter" false false pos =
        some (⟨text.take pos ++
                 '\n' :: (indent ++ (toString (parseIntDigits digits + 1)).data ++ suffix) ++
                 text.drop pos,
               text :: us, rs⟩,
              pos + 1 + indent.length +
                (toString (parseIntDigits digits + 1)).data.length + suffix.length)) := by
  constructor
  · intro indent bullet space hm hne
    simp [handleKeyDown, hm, hne, continueBulletList]
  · intro indent digits suffix hm hne hp
    have hb := bulletMatch_eq_none_of_numberMatch _ _ hm
    have hpj : parseIntJS digits = parseIntDigits digits := by
      rw [parseIntJS, roundToDouble_of_le _ (Nat.le_of_lt hp)]
    have hnext : roundToDouble (parseIntDigits digits + 1) = parseIntDigits digits + 1 :=
      roundToDouble_of_le _ (by omega)
    simp [handleKeyDown, hb, hm, hne, continueNumberedList, hpj, hnext]

/-- C6 witness: the spec example, buffer `"2. second item"` with the
caret at the end of the line, yields `"2. second item\n3. "` with the
caret right after the inserted marker. -/
theorem enter_continues_list_witness :
    handleKeyDown ⟨"2. second item".data, [], []⟩ "Enter" false false 14 =
      some (⟨"2. second item\n3. ".data, ["2. second item".data], []⟩, 18) :=
  (enter_continues_list "2. second item".data 14 [] []).2 [] ['2'] ['.', ' ']
    (by decide) (by decide) (by decide)

/-- C7: on Enter without Shift, a caret line whose trimmed content is
exactly a list marker (empty bullet or empty numbered item) has the
text from the line start up to the caret deleted, no newline inserted,
the caret placed at the line start, and exactly one snapshot pushed on
the undo stack.  The witness instantiates the spec example `"- "`. -/
theorem enter_removes_empty_marker (text : Buffer) (pos : ℕ) (us rs : List Buffer) :
    (∀ indent bullet space,
      bulletMatch (getCurrentLine text pos) = some (indent, bullet, space) →
      trim (getCurrentLine text pos) = bullet :: trimEnd space →
      handleKeyDown ⟨text, us, rs⟩ "Enter" false false pos =
        some (⟨text.take (lineStartIndex text pos) ++ text.drop pos, text :: us, rs⟩,
              lineStartIndex text pos)) ∧
    (∀ indent digits suffix,
      numberMatch (getCurrentLine text pos) = some (indent, digits, suffix) →
      trim (getCurrentLine text pos) = digits ++ trimEnd suffix →
      handleKeyDown ⟨text, us, rs⟩ "Enter" false false pos =
        some (⟨text.take (lineStartIndex text pos) ++ text.drop pos, text :: us, rs⟩,
              lineStartIndex text pos)) := by
  constructor
  · intro indent bullet space hm heq
    simp [handleKeyDown, hm, heq, removeBullet]
  · intro indent digits suffix hm heq
    have hb := bulletMatch_eq_none_of_numberMatch _ _ hm
    simp [handleKeyDown, hb, hm, heq, removeNumberedItem]

/-- C7 witness: the spec example, buffer `"- "` with the caret at the
end, yields the empty buffer with the caret at the line start and one
snapshot pushed. -/
theorem enter_removes_empty_marker_witness :
    handleKeyDown ⟨"- ".data, [], []⟩ "Enter" false false 2 =
      some (⟨[], ["- ".data], []⟩, 0) :=
  (enter_removes_empty_marker "- ".data 2 [] []).1 [] '-' [' ']
    (by decide) (by decide)

/-- C10: pressing Enter with Shift held is never intercepted by the key
handler, whatever the alt flag, the state and the caret position: no
buffer replacement happens and the state is untouched. -/
theorem shift_enter_is_ignored (s : EditorState) (alt : Bool) (pos : ℕ) :
    handleKeyDown s "Enter" alt true pos = none := by
  have h1 : (toLowerCase "Enter" == "b") = false := by decide
  have h2 : (toLowerCase "Enter" == "n") = false := by decide
  simp [handleKeyDown, h1, h2]
